import Mathlib

/-!
Verification of the request-construction and streaming-response pipeline of the
ollama-vscode extension against its specification.

The definitions below are a shallow embedding of the TypeScript sources:
  - `OllamaApi.streamChatCompletion` (transport client, `src/ollamaApi.ts`),
  - `OllamaChatProvider` (chat session engine, `src/chatProvider.ts`),
  - `OllamaCompletionProvider` (completion engine, `src/completionProvider.ts`).
Pure functions become Lean functions; the mutable `chatHistory` field becomes
explicit state passing; the streamed transport is modelled by the list of byte
chunks it delivers and, where timing matters, by an explicit event trace.
-/

set_option maxRecDepth 4096

namespace OllamaVscode

/-! ## JavaScript string primitives

The sources use JavaScript string methods; they are embedded here as
structurally recursive functions on the character list (all inputs the
sources handle are ASCII, where JavaScript UTF-16 code units and Lean code
points coincide). -/

/-- Whitespace as recognised by `String.prototype.trim`: the ASCII
whitespace characters, no-break space, the line separators and the BOM (the
rarely met Unicode `Zs` spaces are omitted; the sources only meet ASCII). -/
def isJsWhitespace (c : Char) : Bool :=
  c = ' ' || c = '\t' || c = '\n' || c = '\r' || c.toNat = 11 || c.toNat = 12 ||
  c.toNat = 0xa0 || c.toNat = 0xfeff || c.toNat = 0x2028 || c.toNat = 0x2029

/-- JS `s.trim()`. -/
def jsTrim (s : String) : String :=
  ⟨((s.data.dropWhile isJsWhitespace).reverse.dropWhile isJsWhitespace).reverse⟩

/-- JS `s.trimStart()`. -/
def jsTrimStart (s : String) : String := ⟨s.data.dropWhile isJsWhitespace⟩

/-- JS `s.split('\n')` on the character list: every separator occurrence
splits, empty pieces included. -/
def splitOnNl : List Char → List (List Char)
  | [] => [[]]
  | c :: rest =>
    match splitOnNl rest with
    | [] => [[]]
    | h :: t => if c = '\n' then [] :: h :: t else (c :: h) :: t

/-- JS `s.split('\n')`. -/
def jsSplitNl (s : String) : List String := (splitOnNl s.data).map (fun cs => ⟨cs⟩)

/-- JS `lines.join('\n')`. -/
def jsJoinNl : List String → String
  | [] => ""
  | l :: rest => rest.foldl (fun acc x => acc ++ "\n" ++ x) l

/-- JS `s.substring(0, n)`. -/
def strTake (s : String) (n : Nat) : String := ⟨s.data.take n⟩

/-- JS `s.substring(n)`. -/
def strDrop (s : String) (n : Nat) : String := ⟨s.data.drop n⟩

/-- Roles of a conversation turn.  The source declares
`role: 'system' | 'user' | 'assistant'`, a closed union of string literals,
embedded here as a closed inductive type. -/
inductive Role where
  | system
  | user
  | assistant
deriving DecidableEq, Repr

/-- Embedding of the `OllamaMessage` interface: `{ role, content }`. -/
structure OllamaMessage where
  role : Role
  content : String
deriving DecidableEq, Repr

/-! ## Chat session engine: `OllamaChatProvider` -/

/-- JS `array.slice(-n)`.  For `n = 0` the argument is `-0`, which JavaScript
normalises to `+0`, so `slice(-0) = slice(0)` returns the whole array; for
`n > 0` it returns the final `min n length` elements. -/
def sliceLast (l : List OllamaMessage) (n : Nat) : List OllamaMessage :=
  if n = 0 then l else l.drop (l.length - n)

/-- Embedding of `OllamaChatProvider.addMessageToHistory`: push the message,
then if the history exceeds `maxHistory * 2` turns (`*2` because each exchange
has a user and an assistant turn) keep only `slice(-maxHistory * 2)`. -/
def addMessageToHistory (maxHistory : Nat) (hist : List OllamaMessage)
    (m : OllamaMessage) : List OllamaMessage :=
  let h := hist ++ [m]
  if h.length > maxHistory * 2 then sliceLast h (maxHistory * 2) else h

/-- Embedding of the assignment
`this.chatHistory[this.chatHistory.length - 1].content = assistantMessage`:
replace the content of the final turn, keeping its role.  On an empty list the
assignment is unreachable (the caller guards on `length > 0`). -/
def setLastContent : List OllamaMessage → String → List OllamaMessage
  | [], _ => []
  | [m], c => [{ m with content := c }]
  | m :: m2 :: rest, c => m :: setLastContent (m2 :: rest) c

/-- One step of the streaming callback in `handleSendMessage`:
`assistantMessage += chunk` followed by the guarded in-place update of the last
history turn.  The state is the pair (history, accumulated assistant text). -/
def fragmentStep (st : List OllamaMessage × String) (chunk : String) :
    List OllamaMessage × String :=
  let acc := st.2 ++ chunk
  if st.1.length > 0 then (setLastContent st.1 acc, acc) else (st.1, acc)

/-- Delivery of a whole fragment sequence to the streaming callback. -/
def foldFragments (hist : List OllamaMessage) (acc : String)
    (frags : List String) : List OllamaMessage × String :=
  frags.foldl fragmentStep (hist, acc)

/-- Intermediate history states seen while the fragment callback runs: one
state per delivered fragment. -/
def fragmentStates : List OllamaMessage → String → List String →
    List (List OllamaMessage)
  | _, _, [] => []
  | hist, acc, f :: rest =>
    let st := fragmentStep (hist, acc) f
    st.1 :: fragmentStates st.1 st.2 rest

/-- Outcome of one call to `streamChatCompletion` as observed by the chat
provider: either the stream delivers a fragment sequence and the awaited
promise resolves, or the promise rejects with an error message after some
(possibly empty) fragment sequence was delivered. -/
inductive StreamOutcome where
  | success (frags : List String)
  | failure (frags : List String) (err : String)
deriving DecidableEq, Repr

/-- Result of one `handleSendMessage` call: the message-list snapshot passed to
the transport (`none` when the send was a no-op) and the final history. -/
structure SendResult where
  request : Option (List OllamaMessage)
  history : List OllamaMessage
deriving DecidableEq, Repr

/-- Embedding of `OllamaChatProvider.handleSendMessage`, line by line:
reject a whitespace-only message; append the trimmed user turn (with
eviction); snapshot `[...this.chatHistory]` as the request messages; append
the empty assistant placeholder (with eviction); run the fragment callback
for each delivered chunk; on resolution re-assign the accumulated text to the
last turn; on rejection pop the last turn if it is an assistant turn and
append the synthetic `Error: ...` assistant turn. -/
def handleSendMessage (maxHistory : Nat) (hist : List OllamaMessage)
    (userMessage : String) (outcome : StreamOutcome) : SendResult :=
  if jsTrim userMessage = "" then
    { request := none, history := hist }
  else
    let userMsg : OllamaMessage := { role := Role.user, content := jsTrim userMessage }
    let h1 := addMessageToHistory maxHistory hist userMsg
    let messages := h1
    let assistantMsg : OllamaMessage := { role := Role.assistant, content := "" }
    let h2 := addMessageToHistory maxHistory h1 assistantMsg
    match outcome with
    | StreamOutcome.success frags =>
      let r := foldFragments h2 "" frags
      let final := if r.1.length > 0 then setLastContent r.1 r.2 else r.1
      { request := some messages, history := final }
    | StreamOutcome.failure frags err =>
      let r := foldFragments h2 "" frags
      let popped :=
        match r.1.getLast? with
        | some m => if m.role = Role.assistant then r.1.dropLast else r.1
        | none => r.1
      let errorMsg : OllamaMessage :=
        { role := Role.assistant, content := "Error: " ++ err }
      { request := some messages, history := addMessageToHistory maxHistory popped errorMsg }

/-- History states of one `handleSendMessage` call in program order: the state
before the send, after the user turn is appended, after the placeholder is
appended, after each fragment, and the final state. -/
def exchangeStates (maxHistory : Nat) (hist : List OllamaMessage)
    (userMessage : String) (outcome : StreamOutcome) : List (List OllamaMessage) :=
  if jsTrim userMessage = "" then [hist]
  else
    let userMsg : OllamaMessage := { role := Role.user, content := jsTrim userMessage }
    let h1 := addMessageToHistory maxHistory hist userMsg
    let assistantMsg : OllamaMessage := { role := Role.assistant, content := "" }
    let h2 := addMessageToHistory maxHistory h1 assistantMsg
    let frags := match outcome with
      | StreamOutcome.success fs => fs
      | StreamOutcome.failure fs _ => fs
    hist :: h1 :: h2 :: fragmentStates h2 "" frags
      ++ [(handleSendMessage maxHistory hist userMessage outcome).history]

/-- Embedding of `OllamaChatProvider.clearChat`: `this.chatHistory = []`. -/
def clearChat (_hist : List OllamaMessage) : List OllamaMessage := []

/-- Iterated successful exchanges: each element of `inputs` is the user text
and the fragment sequence of one completed (successfully streamed) exchange. -/
def runSuccessExchanges (maxHistory : Nat) (hist : List OllamaMessage)
    (inputs : List (String × List String)) : List OllamaMessage :=
  inputs.foldl
    (fun h p => (handleSendMessage maxHistory h p.1 (StreamOutcome.success p.2)).history)
    hist

/-- The two turns a completed exchange leaves in the history. -/
def completedPair (u : String) (frags : List String) : List OllamaMessage :=
  [{ role := Role.user, content := jsTrim u },
   { role := Role.assistant, content := String.join frags }]

/-- Final `n` elements of a list. -/
def lastN (n : Nat) (l : List α) : List α := l.drop (l.length - n)

/-! ## Transport client: `OllamaApi.streamChatCompletion`

The wire format is newline-delimited JSON.  `JSON.parse` is embedded as a
strict recursive-descent JSON parser returning `none` where `JSON.parse`
throws. -/

/-- Parsed JSON values.  Numbers keep their lexeme (their numeric value is
never consumed by the sources, only their JavaScript truthiness). -/
inductive Json where
  | null
  | bool (b : Bool)
  | num (lexeme : String)
  | str (s : String)
  | arr (elems : List Json)
  | obj (fields : List (String × Json))

/-- JSON insignificant whitespace: space, tab, line feed, carriage return. -/
def isJsonWs (c : Char) : Bool :=
  c = ' ' || c = '\t' || c = '\n' || c = '\r'

/-- Skip insignificant whitespace. -/
def skipWs (cs : List Char) : List Char := cs.dropWhile isJsonWs

/-- Value of a hexadecimal digit. -/
def hexVal (c : Char) : Option Nat :=
  if '0' ≤ c ∧ c ≤ '9' then some (c.toNat - '0'.toNat)
  else if 'a' ≤ c ∧ c ≤ 'f' then some (c.toNat - 'a'.toNat + 10)
  else if 'A' ≤ c ∧ c ≤ 'F' then some (c.toNat - 'A'.toNat + 10)
  else none

/-- Body of a JSON string after the opening quote: ordinary characters,
escape sequences, and the closing quote.  Control characters are illegal. -/
def parseStringBody : List Char → List Char → Option (String × List Char)
  | [], _ => none
  | c :: rest, acc =>
    if c = '"' then some (⟨acc.reverse⟩, rest)
    else if c = '\\' then
      match rest with
      | [] => none
      | e :: rest2 =>
        if e = '"' then parseStringBody rest2 ('"' :: acc)
        else if e = '\\' then parseStringBody rest2 ('\\' :: acc)
        else if e = '/' then parseStringBody rest2 ('/' :: acc)
        else if e = 'b' then parseStringBody rest2 (Char.ofNat 8 :: acc)
        else if e = 'f' then parseStringBody rest2 (Char.ofNat 12 :: acc)
        else if e = 'n' then parseStringBody rest2 ('\n' :: acc)
        else if e = 'r' then parseStringBody rest2 ('\r' :: acc)
        else if e = 't' then parseStringBody rest2 ('\t' :: acc)
        else if e = 'u' then
          match rest2 with
          | h1 :: h2 :: h3 :: h4 :: rest3 =>
            match hexVal h1, hexVal h2, hexVal h3, hexVal h4 with
            | some a, some b, some c2, some d =>
              parseStringBody rest3
                (Char.ofNat (((a * 16 + b) * 16 + c2) * 16 + d) :: acc)
            | _, _, _, _ => none
          | _ => none
        else none
    else if c.toNat < 32 then none
    else parseStringBody rest (c :: acc)

/-- Exponent part of a JSON number (may be absent). -/
def parseExpPart (lex : List Char) (cs : List Char) : Option (List Char × List Char) :=
  match cs with
  | e :: rest =>
    if e = 'e' ∨ e = 'E' then
      let signAndRest : List Char × List Char :=
        match rest with
        | s :: r2 => if s = '+' ∨ s = '-' then ([s], r2) else ([], rest)
        | [] => ([], rest)
      match signAndRest.2 with
      | d :: _ =>
        if d.isDigit then
          let ds := signAndRest.2.takeWhile Char.isDigit
          some (lex ++ e :: signAndRest.1 ++ ds, signAndRest.2.dropWhile Char.isDigit)
        else none
      | [] => none
    else some (lex, cs)
  | [] => some (lex, cs)

/-- Fraction part of a JSON number (may be absent), then the exponent part. -/
def parseFracPart (lex : List Char) (cs : List Char) : Option (List Char × List Char) :=
  match cs with
  | '.' :: rest =>
    match rest with
    | d :: _ =>
      if d.isDigit then
        parseExpPart (lex ++ '.' :: rest.takeWhile Char.isDigit)
          (rest.dropWhile Char.isDigit)
      else none
    | [] => none
  | _ => parseExpPart lex cs

/-- JSON number, strict grammar as accepted by `JSON.parse`:
an optional minus sign, `0` or a nonzero-led digit run, then optional
fraction and exponent.  Returns the lexeme and the remaining input. -/
def parseNumber (cs : List Char) : Option (List Char × List Char) :=
  let signAndRest : List Char × List Char :=
    match cs with
    | '-' :: rest => (['-'], rest)
    | _ => ([], cs)
  match signAndRest.2 with
  | c :: rest =>
    if c = '0' then parseFracPart (signAndRest.1 ++ [c]) rest
    else if c.isDigit then
      parseFracPart (signAndRest.1 ++ c :: rest.takeWhile Char.isDigit)
        (rest.dropWhile Char.isDigit)
    else none
  | [] => none

mutual

/-- JSON value parser (recursive descent; `fuel` bounds the recursion and is
chosen large enough at the top level that it never runs out on real input). -/
def parseValue (fuel : Nat) (cs : List Char) : Option (Json × List Char) :=
  match fuel with
  | 0 => none
  | fuel + 1 =>
    match skipWs cs with
    | [] => none
    | c :: rest =>
      if c = '"' then
        match parseStringBody rest [] with
        | some (s, r) => some (Json.str s, r)
        | none => none
      else if c = '\x7b' then
        match skipWs rest with
        | '\x7d' :: r => some (Json.obj [], r)
        | _ => parseMembers fuel rest []
      else if c = '[' then
        match skipWs rest with
        | ']' :: r => some (Json.arr [], r)
        | _ => parseElements fuel rest []
      else if c = 't' then
        match rest with
        | 'r' :: 'u' :: 'e' :: r => some (Json.bool true, r)
        | _ => none
      else if c = 'f' then
        match rest with
        | 'a' :: 'l' :: 's' :: 'e' :: r => some (Json.bool false, r)
        | _ => none
      else if c = 'n' then
        match rest with
        | 'u' :: 'l' :: 'l' :: r => some (Json.null, r)
        | _ => none
      else
        match parseNumber (c :: rest) with
        | some (lex, r) => some (Json.num ⟨lex⟩, r)
        | none => none

/-- Members of a JSON object after `{` (at least one member expected). -/
def parseMembers (fuel : Nat) (cs : List Char) (acc : List (String × Json)) :
    Option (Json × List Char) :=
  match fuel with
  | 0 => none
  | fuel + 1 =>
    match skipWs cs with
    | '"' :: rest =>
      match parseStringBody rest [] with
      | some (k, r1) =>
        match skipWs r1 with
        | ':' :: r2 =>
          match parseValue fuel r2 with
          | some (v, r3) =>
            match skipWs r3 with
            | ',' :: r4 => parseMembers fuel r4 (acc ++ [(k, v)])
            | '\x7d' :: r4 => some (Json.obj (acc ++ [(k, v)]), r4)
            | _ => none
          | none => none
        | _ => none
      | none => none
    | _ => none

/-- Elements of a JSON array after `[` (at least one element expected). -/
def parseElements (fuel : Nat) (cs : List Char) (acc : List Json) :
    Option (Json × List Char) :=
  match fuel with
  | 0 => none
  | fuel + 1 =>
    match parseValue fuel cs with
    | some (v, r1) =>
      match skipWs r1 with
      | ',' :: r2 => parseElements fuel r2 (acc ++ [v])
      | ']' :: r2 => some (Json.arr (acc ++ [v]), r2)
      | _ => none
    | none => none

end

/-- Embedding of `JSON.parse(s)`: parse one value, allow trailing
whitespace, reject trailing garbage; `none` where `JSON.parse` throws. -/
def jsonParse (s : String) : Option Json :=
  match parseValue (s.length * 2 + 4) s.data with
  | some (j, rest) => if skipWs rest = [] then some j else none
  | none => none

/-- JavaScript truthiness of a parsed JSON value: `null`, `false`, `0` (any
zero-valued number) and `""` are falsy; every object and array is truthy. -/
def jsTruthy : Json → Bool
  | Json.null => false
  | Json.bool b => b
  | Json.str s => s != ""
  | Json.num lex =>
    (lex.data.takeWhile (fun c => c != 'e' && c != 'E')).any
      (fun c => c.isDigit && c != '0')
  | Json.arr _ => true
  | Json.obj _ => true

/-- Property access `j.k` on a parsed JSON value: defined only on objects
(`undefined` on other values; a `TypeError` on `null` is caught by the
surrounding `try`).  `JSON.parse` keeps the last of duplicate keys. -/
def getField : Json → String → Option Json
  | Json.obj fields, k => (fields.reverse.find? (fun p => p.1 == k)).map (fun p => p.2)
  | _, _ => none

/-- One iteration of the `for (const line of lines)` body in
`streamChatCompletion`: `JSON.parse(line)` inside `try`, then
`if (data.message && data.message.content) onChunk(data.message.content)`.
`none` means no `onChunk` call: a parse failure (caught), a `TypeError` on
property access (caught by the same `try`), a missing or falsy `message`, or
a missing or falsy `content`.  The wire interface declares
`content: string`, so content is only ever a string; the empty string is
falsy and delivers nothing. -/
def fragmentOfLine (line : String) : Option String :=
  match jsonParse line with
  | none => none
  | some data =>
    match getField data "message" with
    | none => none
    | some msg =>
      if jsTruthy msg then
        match getField msg "content" with
        | some (Json.str s) => if s != "" then some s else none
        | _ => none
      else none

/-- Embedding of the `data` handler of `streamChatCompletion`: split the
chunk on newlines, keep lines whose trim is nonempty, and invoke `onChunk`
once per line that parses to a truthy `message.content`.  Each chunk is
processed independently; nothing is carried between chunks. -/
def processChunk (chunk : String) : List String :=
  ((jsSplitNl chunk).filter (fun line => jsTrim line != "")).filterMap fragmentOfLine

/-- All `onChunk` arguments produced over a whole connected stream, in
arrival order. -/
def streamFragments (chunks : List String) : List String :=
  ((chunks.map processChunk)).flatten

/-- Externally visible events of one `streamChatCompletion` call. -/
inductive StreamEvent where
  | resolve
  | reject (msg : String)
  | fragment (s : String)
  | streamEnd
deriving DecidableEq, Repr

/-- Behaviour of the underlying transport for one call. -/
inductive ConnResult where
  | connected (chunks : List String)
  | connectionFailure (err : String)
deriving DecidableEq, Repr

/-- Event trace of `streamChatCompletion`.  `await axios.post` with
`responseType: 'stream'` resolves when the HTTP response arrives; the
function then registers the `data` and `end` handlers and returns, so the
returned promise resolves before any `data` event is processed, and the
registered `end` handler does nothing.  On connection failure the `catch`
rethrows `Failed to stream chat completion: ...` and no fragment is ever
delivered. -/
def streamChatTrace : ConnResult → List StreamEvent
  | ConnResult.connectionFailure err =>
    [StreamEvent.reject ("Failed to stream chat completion: " ++ err)]
  | ConnResult.connected chunks =>
    StreamEvent.resolve ::
      ((streamFragments chunks).map StreamEvent.fragment ++ [StreamEvent.streamEnd])

/-! ## Completion engine: `OllamaCompletionProvider` -/

/-- Embedding of `OllamaCompletionProvider.getContextLines`.  The document is
its list of lines and the cursor is `(line, char)`.  `Math.max(0, line - 10)`
is truncated natural subtraction; the loop runs from `startLine` to
`endLine = Math.min(lineCount - 1, line + 5)` inclusive, taking only the text
before the cursor on the cursor's own line. -/
def getContextLines (doc : List String) (line char : Nat) : List String :=
  let startLine := line - 10
  let endLine := min (doc.length - 1) (line + 5)
  (List.range (endLine + 1 - startLine)).map (fun k =>
    let i := startLine + k
    if i = line then strTake (doc.getD i "") char else doc.getD i "")

/-- Embedding of `OllamaCompletionProvider.getSuffix`: the cursor line from
the cursor column on, then the lines up to `Math.min(lineCount - 1, line + 3)`,
joined with newlines and trimmed. -/
def getSuffix (doc : List String) (line char : Nat) : String :=
  let suffixOnLine := strDrop (doc.getD line "") char
  let maxLines := min (doc.length - 1) (line + 3)
  let rest := (List.range (maxLines - line)).map (fun k => doc.getD (line + 1 + k) "")
  jsTrim (jsJoinNl (suffixOnLine :: rest))

/-- Replacement of `/^```[\w]*\n?/` with the empty string: an opening code
fence at the start, an optional word-character run, an optional newline. -/
def stripLeadingFence (s : String) : String :=
  match s.data with
  | '`' :: '`' :: '`' :: rest =>
    match rest.dropWhile (fun c => c.isAlphanum || c = '_') with
    | '\n' :: r => ⟨r⟩
    | rest2 => ⟨rest2⟩
  | _ => s

/-- Replacement of `/\n?```$/` with the empty string: a closing code fence at
the end, preferring to also take a preceding newline. -/
def stripTrailingFence (s : String) : String :=
  match s.data.reverse with
  | '`' :: '`' :: '`' :: '\n' :: r => ⟨r.reverse⟩
  | '`' :: '`' :: '`' :: r => ⟨r.reverse⟩
  | _ => s

/-- The per-line cleanup `lines.map((line, index) => index === 0 ?
line.trimStart() : line)`: only the first produced line is trimmed at its
start. -/
def trimFirstLine : List String → List String
  | [] => []
  | l :: rest => jsTrimStart l :: rest

/-- The `processCompletion` pipeline before the echo guard: trim, strip the
code-fence markers, trim the start of the first line, and truncate at the
first newline (`indexOf('\n')` / `substring`). -/
def processedBeforeEcho (completion : String) : String :=
  let processed := jsTrim completion
  let processed := stripTrailingFence (stripLeadingFence processed)
  let processed := jsJoinNl (trimFirstLine (jsSplitNl processed))
  ⟨processed.data.takeWhile (fun c => c != '\n')⟩

/-- Embedding of `OllamaCompletionProvider.processCompletion`: the empty
completion short-circuits (`if (!completion) return ''`); otherwise the
pipeline runs and a result that trims to the already-typed line text before
the cursor is suppressed. -/
def processCompletion (completion : String) (doc : List String) (line char : Nat) :
    String :=
  if completion = "" then ""
  else
    let processed := processedBeforeEcho completion
    let alreadyTyped := strTake (doc.getD line "") char
    if jsTrim processed = jsTrim alreadyTyped then "" else processed

/-! ## Helper lemmas -/

/-- Turns left in the history by a list of completed exchanges, in order. -/
def pairsFlat (E : List (String × List String)) : List OllamaMessage :=
  (E.map (fun p => completedPair p.1 p.2)).flatten

theorem setLastContent_append (l : List OllamaMessage) (m : OllamaMessage) (c : String) :
    setLastContent (l ++ [m]) c = l ++ [{ m with content := c }] := by
  induction l with
  | nil => rfl
  | cons a l ih =>
    cases l with
    | nil => rfl
    | cons b l2 => simpa [setLastContent] using ih

theorem foldFragments_nil_left (frags : List String) (acc : String) :
    foldFragments [] acc frags = ([], frags.foldl (· ++ ·) acc) := by
  induction frags generalizing acc with
  | nil => rfl
  | cons f rest ih =>
    show List.foldl fragmentStep ([], acc) (f :: rest) = _
    rw [List.foldl_cons, show fragmentStep ([], acc) f = ([], acc ++ f) from rfl]
    exact ih (acc ++ f)

theorem fragmentStep_append (l : List OllamaMessage) (m : OllamaMessage)
    (acc f : String) :
    fragmentStep (l ++ [m], acc) f = (l ++ [{ m with content := acc ++ f }], acc ++ f) := by
  simp [fragmentStep, setLastContent_append]

theorem foldFragments_append (frags : List String) (l : List OllamaMessage)
    (m : OllamaMessage) (acc : String) :
    ∃ m2 : OllamaMessage, m2.role = m.role ∧
      foldFragments (l ++ [m]) acc frags = (l ++ [m2], frags.foldl (· ++ ·) acc) := by
  induction frags generalizing m acc with
  | nil => exact ⟨m, rfl, rfl⟩
  | cons f rest ih =>
    obtain ⟨m2, hrole, heq⟩ := ih { m with content := acc ++ f } (acc ++ f)
    refine ⟨m2, hrole, ?_⟩
    show List.foldl fragmentStep (l ++ [m], acc) (f :: rest) = _
    rw [List.foldl_cons, fragmentStep_append]
    exact heq

theorem successFinal_eq (frags : List String) (l : List OllamaMessage)
    (m : OllamaMessage) (acc : String) :
    (if (foldFragments (l ++ [m]) acc frags).1.length > 0
     then setLastContent (foldFragments (l ++ [m]) acc frags).1
            (foldFragments (l ++ [m]) acc frags).2
     else (foldFragments (l ++ [m]) acc frags).1)
      = l ++ [{ m with content := frags.foldl (· ++ ·) acc }] := by
  obtain ⟨m2, hrole, heq⟩ := foldFragments_append frags l m acc
  rw [heq]
  simp [setLastContent_append]
  exact hrole

theorem addMessage_shape (maxH : Nat) (hist : List OllamaMessage) (m : OllamaMessage) :
    ∃ k, k ≤ hist.length ∧
      addMessageToHistory maxH hist m = hist.drop k ++ [m] := by
  by_cases h1 : (hist ++ [m]).length > maxH * 2
  · by_cases h2 : maxH * 2 = 0
    · refine ⟨0, Nat.zero_le _, ?_⟩
      simp only [addMessageToHistory, sliceLast]
      rw [if_pos h1, if_pos h2]
      simp
    · refine ⟨(hist ++ [m]).length - maxH * 2, by simp at h1 ⊢; omega, ?_⟩
      simp only [addMessageToHistory, sliceLast]
      rw [if_pos h1, if_neg h2]
      rw [List.drop_append_of_le_length (by simp at h1 ⊢; omega)]
  · refine ⟨0, Nat.zero_le _, ?_⟩
    simp only [addMessageToHistory, sliceLast]
    rw [if_neg h1]
    simp

theorem addMessage_getLast (maxH : Nat) (hist : List OllamaMessage) (m : OllamaMessage) :
    (addMessageToHistory maxH hist m).getLast? = some m := by
  obtain ⟨k, _, heq⟩ := addMessage_shape maxH hist m
  rw [heq, List.getLast?_concat]

theorem addMessage_length_le (maxH : Nat) (hm : maxH ≠ 0) (hist : List OllamaMessage)
    (m : OllamaMessage) :
    (addMessageToHistory maxH hist m).length ≤ maxH * 2 := by
  by_cases h1 : (hist ++ [m]).length > maxH * 2
  · have h2 : ¬ maxH * 2 = 0 := by omega
    simp only [addMessageToHistory, sliceLast]
    rw [if_pos h1, if_neg h2]
    simp
    omega
  · simp only [addMessageToHistory, sliceLast]
    rw [if_neg h1]
    simp at h1 ⊢
    omega

theorem addMessage_no_evict (maxH : Nat) (hist : List OllamaMessage) (m : OllamaMessage)
    (h : hist.length + 1 ≤ maxH * 2 ∨ maxH = 0) :
    addMessageToHistory maxH hist m = hist ++ [m] := by
  rcases h with h | h
  · have h1 : ¬ (hist ++ [m]).length > maxH * 2 := by simp; omega
    simp only [addMessageToHistory, sliceLast]
    rw [if_neg h1]
  · subst h
    simp only [addMessageToHistory, sliceLast]
    by_cases h1 : (hist ++ [m]).length > 0 * 2
    · rw [if_pos h1]
      simp
    · rw [if_neg h1]

theorem addMessage_cases (maxH : Nat) (hist : List OllamaMessage) (m : OllamaMessage)
    (hb : hist.length ≤ maxH * 2 ∨ maxH = 0) :
    ((hist.length + 1 ≤ maxH * 2 ∨ maxH = 0)
      ∧ addMessageToHistory maxH hist m = hist ++ [m])
    ∨ (hist.length = maxH * 2 ∧ maxH ≠ 0
      ∧ addMessageToHistory maxH hist m = hist.drop 1 ++ [m]) := by
  by_cases h1 : (hist ++ [m]).length > maxH * 2
  · by_cases h2 : maxH * 2 = 0
    · left
      refine ⟨Or.inr (by omega), ?_⟩
      simp only [addMessageToHistory, sliceLast]
      rw [if_pos h1, if_pos h2]
    · right
      have hlen : hist.length = maxH * 2 := by simp at h1; omega
      refine ⟨hlen, by omega, ?_⟩
      simp only [addMessageToHistory, sliceLast]
      rw [if_pos h1, if_neg h2]
      have hd : (hist ++ [m]).length - maxH * 2 = 1 := by simp; omega
      rw [hd, List.drop_append_of_le_length (by omega)]
  · left
    refine ⟨Or.inl (by simp at h1; omega), ?_⟩
    simp only [addMessageToHistory, sliceLast]
    rw [if_neg h1]

theorem setLastContent_length (l : List OllamaMessage) (c : String) :
    (setLastContent l c).length = l.length := by
  rcases List.eq_nil_or_concat l with rfl | ⟨l2, m, rfl⟩
  · rfl
  · rw [List.concat_eq_append, setLastContent_append]
    simp

theorem setLastContent_dropLast (l : List OllamaMessage) (c : String) :
    (setLastContent l c).dropLast = l.dropLast := by
  rcases List.eq_nil_or_concat l with rfl | ⟨l2, m, rfl⟩
  · rfl
  · rw [List.concat_eq_append, setLastContent_append, List.dropLast_concat,
      List.dropLast_concat]

theorem fragmentStep_length (st : List OllamaMessage × String) (f : String) :
    (fragmentStep st f).1.length = st.1.length := by
  simp only [fragmentStep]
  by_cases h : st.1.length > 0
  · rw [if_pos h]
    exact setLastContent_length _ _
  · rw [if_neg h]

theorem fragmentStep_dropLast (st : List OllamaMessage × String) (f : String) :
    (fragmentStep st f).1.dropLast = st.1.dropLast := by
  simp only [fragmentStep]
  by_cases h : st.1.length > 0
  · rw [if_pos h]
    exact setLastContent_dropLast _ _
  · rw [if_neg h]

theorem range_map_getD (doc : List String) (a b : Nat) (hab : a + b ≤ doc.length) :
    (List.range b).map (fun k => doc.getD (a + k) "") = (doc.drop a).take b := by
  apply List.ext_getElem
  · simp [List.length_take, List.length_drop]
    omega
  · intro i h1 h2
    simp only [List.getElem_map, List.getElem_range, List.getElem_take, List.getElem_drop]
    rw [List.getD_eq_getElem doc "" (by simp at h1; omega)]

theorem range_split3 (a c : Nat) :
    List.range (a + (1 + c))
      = List.range a ++ [a] ++ (List.range c).map (fun k => a + 1 + k) := by
  rw [List.range_add, List.range_add, List.map_append, List.map_map]
  simp [Nat.add_assoc, List.range_succ]

theorem pairsFlat_length (E : List (String × List String)) :
    (pairsFlat E).length = 2 * E.length := by
  induction E with
  | nil => rfl
  | cons e E2 ih =>
    simp only [pairsFlat, List.map_cons, List.flatten_cons] at ih ⊢
    simp [completedPair] at ih ⊢
    omega

theorem pairsFlat_append_single (E : List (String × List String))
    (x : String × List String) :
    pairsFlat (E ++ [x]) = pairsFlat E ++ completedPair x.1 x.2 := by
  simp [pairsFlat]

theorem pairsFlat_drop_two (E : List (String × List String)) (hE : E ≠ []) :
    (pairsFlat E).drop 2 = pairsFlat (E.drop 1) := by
  cases E with
  | nil => exact absurd rfl hE
  | cons e E2 => rfl

theorem lastN_length (n : Nat) (l : List α) : (lastN n l).length = min n l.length := by
  simp [lastN]
  omega

theorem lastN_of_le (n : Nat) (l : List α) (h : l.length ≤ n) : lastN n l = l := by
  simp only [lastN]
  rw [Nat.sub_eq_zero_of_le h, List.drop_zero]

theorem lastN_concat (n : Nat) (hn : 1 ≤ n) (l : List α) (x : α) :
    lastN n (lastN n l ++ [x]) = lastN n (l ++ [x]) := by
  by_cases h : l.length ≤ n
  · rw [lastN_of_le n l h]
  · push_neg at h
    have hll : (l.drop (l.length - n)).length = n := by
      rw [List.length_drop]
      omega
    show lastN n (l.drop (l.length - n) ++ [x]) = lastN n (l ++ [x])
    simp only [lastN, List.length_append, List.length_singleton, hll,
      List.length_drop]
    have h1 : n + 1 - n = 1 := by omega
    have h2 : l.length + 1 - n = l.length - n + 1 := by omega
    rw [h1, h2, List.drop_append_of_le_length (by rw [hll]; omega),
      List.drop_append_of_le_length (by omega), List.drop_drop]

theorem success_step (b : Nat) (hb : 1 ≤ b) (E : List (String × List String))
    (u : String) (frags : List String) (hu : jsTrim u ≠ "") (hE : E.length ≤ b) :
    (handleSendMessage b (pairsFlat E) u (StreamOutcome.success frags)).history
      = pairsFlat (lastN b (E ++ [(u, frags)])) := by
  have hplen : (pairsFlat E).length = 2 * E.length := pairsFlat_length E
  simp only [handleSendMessage]
  rw [if_neg hu]
  by_cases hlt : E.length < b
  · have h1eq : addMessageToHistory b (pairsFlat E)
        { role := Role.user, content := jsTrim u }
        = pairsFlat E ++ [{ role := Role.user, content := jsTrim u }] :=
      addMessage_no_evict b _ _ (Or.inl (by omega))
    have h2eq : addMessageToHistory b
        (pairsFlat E ++ [{ role := Role.user, content := jsTrim u }])
        { role := Role.assistant, content := "" }
        = (pairsFlat E ++ [{ role := Role.user, content := jsTrim u }])
          ++ [{ role := Role.assistant, content := "" }] :=
      addMessage_no_evict b _ _ (Or.inl (by simp; omega))
    rw [h1eq, h2eq, successFinal_eq,
      lastN_of_le b (E ++ [(u, frags)]) (by simp; omega),
      pairsFlat_append_single]
    simp [completedPair, List.append_assoc]
    rfl
  · have heqb : E.length = b := by omega
    rcases addMessage_cases b (pairsFlat E) { role := Role.user, content := jsTrim u }
        (Or.inl (by omega)) with ⟨hno, _⟩ | ⟨_, _, h1eq⟩
    · rcases hno with hc | hc <;> omega
    rcases addMessage_cases b
        ((pairsFlat E).drop 1 ++ [{ role := Role.user, content := jsTrim u }])
        { role := Role.assistant, content := "" }
        (Or.inl (by simp [List.length_drop]; omega)) with ⟨hno, _⟩ | ⟨_, _, h2eq⟩
    · rcases hno with hc | hc
      · simp [List.length_drop] at hc
        omega
      · omega
    have hdrop : ((pairsFlat E).drop 1
          ++ ([{ role := Role.user, content := jsTrim u }] : List OllamaMessage)).drop 1
        = (pairsFlat E).drop 2
          ++ ([{ role := Role.user, content := jsTrim u }] : List OllamaMessage) := by
      rw [List.drop_append_of_le_length (by simp [List.length_drop]; omega),
        List.drop_drop]
    rw [h1eq, h2eq, hdrop, successFinal_eq]
    have hlast : lastN b (E ++ [(u, frags)]) = E.drop 1 ++ [(u, frags)] := by
      simp only [lastN, List.length_append, List.length_singleton]
      have hidx : E.length + 1 - b = 1 := by omega
      rw [hidx, List.drop_append_of_le_length (by omega)]
    rw [hlast, pairsFlat_append_single,
      ← pairsFlat_drop_two E (by intro hc; rw [hc] at heqb; simp at heqb; omega)]
    simp [completedPair, List.append_assoc]
    rfl

theorem runSuccess_spec (b : Nat) (hb : 1 ≤ b) (inputs : List (String × List String))
    (hne : ∀ p ∈ inputs, jsTrim p.1 ≠ "") :
    runSuccessExchanges b [] inputs = pairsFlat (lastN b inputs) := by
  induction inputs using List.reverseRecOn with
  | nil => simp [runSuccessExchanges, lastN, pairsFlat]
  | append_singleton l x ih =>
    have hne2 : ∀ p ∈ l, jsTrim p.1 ≠ "" := by
      intro p hp
      exact hne p (List.mem_append.mpr (Or.inl hp))
    have hx : jsTrim x.1 ≠ "" := hne x (List.mem_append.mpr (Or.inr (by simp)))
    show List.foldl _ [] (l ++ [x]) = _
    rw [List.foldl_append]
    have hrun : List.foldl
        (fun h p => (handleSendMessage b h p.1 (StreamOutcome.success p.2)).history)
        ([] : List OllamaMessage) l = pairsFlat (lastN b l) := ih hne2
    rw [hrun]
    show (handleSendMessage b (pairsFlat (lastN b l)) x.1
        (StreamOutcome.success x.2)).history = pairsFlat (lastN b (l ++ [x]))
    rw [success_step b hb (lastN b l) x.1 x.2 hx
        (by rw [lastN_length]; omega),
      lastN_concat b hb l x]

/-! ## Claim theorems -/

/-- Claim C1 concerns a code defect: `streamChatCompletion` resolves its
promise as soon as the HTTP response arrives — the `data`/`end` handlers are
registered and the function returns without awaiting the `end` event — so
fragments are delivered after resolution.  On a connected stream carrying one
complete chat line, the trace is `resolve` first and `fragment "Hi"` after
it, contradicting the claimed happens-before order. -/
theorem c1_resolves_before_fragments :
    streamChatTrace (ConnResult.connected
      ["\x7b\"message\":\x7b\"role\":\"assistant\",\"content\":\"Hi\"\x7d,\"done\":true\x7d\n"])
      = [StreamEvent.resolve, StreamEvent.fragment "Hi", StreamEvent.streamEnd] := by
  rfl

/-- Claim C2 is false on the code: the stream parser does not buffer a final
incomplete line across chunk boundaries.  A well-formed chat line whose bytes
are split across two chunks produces zero `onChunk` invocations — both pieces
are dropped as parse failures — not exactly one; the same bytes delivered
unsplit produce one invocation with `"Hi"`. -/
theorem c2_counterexample :
    streamFragments
        ["\x7b\"message\":\x7b\"role\":\"assistant\",\"con",
         "tent\":\"Hi\"\x7d,\"done\":false\x7d\n"] ≠ ["Hi"]
    ∧ streamFragments
        ["\x7b\"message\":\x7b\"role\":\"assistant\",\"con",
         "tent\":\"Hi\"\x7d,\"done\":false\x7d\n"] = []
    ∧ streamFragments
        ["\x7b\"message\":\x7b\"role\":\"assistant\",\"con" ++
         "tent\":\"Hi\"\x7d,\"done\":false\x7d\n"] = ["Hi"] :=
  ⟨by decide, by rfl, by rfl⟩

/-- Claim C2 amended: `streamChatCompletion` processes every chunk
independently — stream processing distributes over concatenation of chunk
lists, so no partial line is ever carried from one chunk to the next — and a
well-formed line split across a chunk boundary is silently dropped, giving
zero `onChunk` invocations for the split line of the counterexample. -/
theorem c2_no_buffering :
    (∀ cs1 cs2 : List String,
      streamFragments (cs1 ++ cs2) = streamFragments cs1 ++ streamFragments cs2)
    ∧ streamFragments
        ["\x7b\"message\":\x7b\"role\":\"assistant\",\"con",
         "tent\":\"Hi\"\x7d,\"done\":false\x7d\n"] = [] := by
  constructor
  · intro cs1 cs2
    simp only [streamFragments, List.map_append, List.flatten_append]
  · rfl

/-- Claim C5 is false for history bound `b = 0`: `slice(-maxHistory * 2)`
with `maxHistory = 0` is `slice(-0) = slice(0)`, which keeps the whole
array, so no eviction ever happens under bound 0.  After `k = 1` completed
exchange the history length is `2`, not `min(1, 0) × 2 = 0`. -/
theorem c5_counterexample :
    (runSuccessExchanges 0 [] [("a", ["Hi"])]).length = 2
    ∧ (runSuccessExchanges 0 [] [("a", ["Hi"])]).length ≠ min 1 0 * 2 :=
  ⟨by rfl, by decide⟩

/-- Claim C5 amended: for every history bound `b ≥ 1`, after `k` completed
exchanges the history is exactly the flattened user/assistant pairs of the
most recent `min(k, b)` exchanges in chronological order (FIFO eviction by
content identity), and its length is `min(k, b) × 2`.  For `b = 0` the
`slice(-0)` quirk retains everything instead. -/
theorem c5_history_eviction (b : Nat) (hb : 1 ≤ b)
    (inputs : List (String × List String))
    (hne : ∀ p ∈ inputs, jsTrim p.1 ≠ "") :
    runSuccessExchanges b [] inputs = pairsFlat (lastN b inputs)
    ∧ (runSuccessExchanges b [] inputs).length = 2 * min inputs.length b := by
  have h := runSuccess_spec b hb inputs hne
  refine ⟨h, ?_⟩
  rw [h, pairsFlat_length, lastN_length]
  omega

/-- Witness for C5's amended statement: two exchanges under bound 1 retain
exactly the last exchange's pair. -/
theorem c5_history_eviction_witness :
    1 ≤ 1
    ∧ (∀ p ∈ ([("a", ["x"]), ("b", ["y"])] : List (String × List String)),
        jsTrim p.1 ≠ "")
    ∧ (runSuccessExchanges 1 [] [("a", ["x"]), ("b", ["y"])]
        = pairsFlat (lastN 1 [("a", ["x"]), ("b", ["y"])])
      ∧ (runSuccessExchanges 1 [] [("a", ["x"]), ("b", ["y"])]).length
        = 2 * min ([("a", ["x"]), ("b", ["y"])] : List (String × List String)).length 1) :=
  ⟨by decide, by decide,
   c5_history_eviction 1 (by decide) [("a", ["x"]), ("b", ["y"])] (by decide)⟩

/-- Claim C6: with already-typed line text `"  return x"` before the cursor
and raw model response `"```js\nreturn x\n```"`, post-processing (fence
stripping, first-line leading-whitespace trim, single-line truncation, echo
guard) yields the empty suggestion; and in general every raw response whose
processed result trims to the trimmed already-typed line text is suppressed
to the empty suggestion. -/
theorem c6_echo_suppression :
    processCompletion "```js\nreturn x\n```" ["  return x"] 0 10 = ""
    ∧ ∀ (raw : String) (doc : List String) (line char : Nat),
        jsTrim (processedBeforeEcho raw) = jsTrim (strTake (doc.getD line "") char) →
        processCompletion raw doc line char = "" := by
  constructor
  · rfl
  · intro raw doc line char h
    by_cases hr : raw = ""
    · simp [processCompletion, hr]
    · simp [processCompletion, hr, h]

/-- Witness for C6's universally quantified part at a concrete input: the raw
response `"abc"` echoes the already-typed `" abc"` and is suppressed. -/
theorem c6_echo_suppression_witness :
    jsTrim (processedBeforeEcho "abc") = jsTrim (strTake ([" abc"].getD 0 "") 4)
    ∧ processCompletion "abc" [" abc"] 0 4 = "" :=
  ⟨by decide, c6_echo_suppression.2 "abc" [" abc"] 0 4 (by decide)⟩

/-- Claim C10 is false in its final clause: the request snapshot can contain
an assistant turn with empty content.  After an exchange whose stream
delivered zero fragments (an Ollama stream whose only line carries
`"content": ""` delivers nothing, since the empty string is falsy), the
history retains an empty-content assistant turn, and the next send's request
message list contains it. -/
theorem c10_counterexample :
    (handleSendMessage 20
        (handleSendMessage 20 [] "a" (StreamOutcome.success [])).history
        "b" (StreamOutcome.success ["x"])).request
      = some ([{ role := Role.user, content := "a" },
               { role := Role.assistant, content := "" },
               { role := Role.user, content := "b" }] : List OllamaMessage)
    ∧ ({ role := Role.assistant, content := "" } : OllamaMessage)
        ∈ ([{ role := Role.user, content := "a" },
            { role := Role.assistant, content := "" },
            { role := Role.user, content := "b" }] : List OllamaMessage) :=
  ⟨by rfl, by decide⟩

/-- Claim C10 amended: the message list passed to the streaming transport is
the snapshot taken after the user's turn is appended and before the
placeholder assistant turn is appended — it equals `addMessageToHistory` of
the pre-send history with the trimmed user turn, its last message is the
user's turn, and every assistant turn in it was already present in the
pre-send history (in particular the current exchange's placeholder is not in
it).  It may, however, contain an empty-content assistant turn left over
from an earlier zero-fragment exchange. -/
theorem c10_request_snapshot (maxH : Nat) (hist : List OllamaMessage)
    (u : String) (outcome : StreamOutcome) (hu : jsTrim u ≠ "") :
    (handleSendMessage maxH hist u outcome).request
      = some (addMessageToHistory maxH hist { role := Role.user, content := jsTrim u })
    ∧ (addMessageToHistory maxH hist
        { role := Role.user, content := jsTrim u }).getLast?
        = some { role := Role.user, content := jsTrim u }
    ∧ ∀ m ∈ addMessageToHistory maxH hist { role := Role.user, content := jsTrim u },
        m.role = Role.assistant → m ∈ hist := by
  refine ⟨?_, addMessage_getLast maxH hist _, ?_⟩
  · simp only [handleSendMessage]
    rw [if_neg hu]
    cases outcome <;> rfl
  · intro m hm hrole
    obtain ⟨k, hk, heq⟩ := addMessage_shape maxH hist
      { role := Role.user, content := jsTrim u }
    rw [heq] at hm
    rcases List.mem_append.mp hm with h | h
    · exact List.mem_of_mem_drop h
    · simp only [List.mem_singleton] at h
      subst h
      exact absurd hrole (by simp)

/-- Witness for C10 at a concrete input. -/
theorem c10_request_snapshot_witness :
    jsTrim "b" ≠ "" ∧
    ((handleSendMessage 1 [] "b" (StreamOutcome.success [])).request
        = some (addMessageToHistory 1 [] { role := Role.user, content := jsTrim "b" })
      ∧ (addMessageToHistory 1 [] { role := Role.user, content := jsTrim "b" }).getLast?
          = some { role := Role.user, content := jsTrim "b" }
      ∧ ∀ m ∈ addMessageToHistory 1 [] { role := Role.user, content := jsTrim "b" },
          m.role = Role.assistant → m ∈ ([] : List OllamaMessage)) :=
  ⟨by decide, c10_request_snapshot 1 [] "b" (StreamOutcome.success []) (by decide)⟩

/-- Claim C9 is false on the code: turns are evicted while an exchange is in
flight.  With bound 1 and a history holding one completed exchange, the next
send evicts the oldest user turn already when the new user turn is appended:
the second state of the exchange trace — strictly between the start of the
send and its completion — no longer contains the turn `{user, "u1"}`. -/
theorem c9_counterexample :
    exchangeStates 1 [{ role := Role.user, content := "u1" },
        { role := Role.assistant, content := "a1" }] "u2" (StreamOutcome.success ["x"])
      = [[{ role := Role.user, content := "u1" },
          { role := Role.assistant, content := "a1" }],
         [{ role := Role.assistant, content := "a1" },
          { role := Role.user, content := "u2" }],
         [{ role := Role.user, content := "u2" },
          { role := Role.assistant, content := "" }],
         [{ role := Role.user, content := "u2" },
          { role := Role.assistant, content := "x" }],
         [{ role := Role.user, content := "u2" },
          { role := Role.assistant, content := "x" }]]
    ∧ ({ role := Role.user, content := "u1" } : OllamaMessage)
        ∉ ([{ role := Role.assistant, content := "a1" },
            { role := Role.user, content := "u2" }] : List OllamaMessage) :=
  ⟨by rfl, by decide⟩

/-- Claim C9 amended: eviction can happen only at the `addMessageToHistory`
append points (the user turn, the placeholder, the error turn), which occur
while the exchange is in flight once the history is at its bound; during
streaming itself no turn is ever evicted — every history state reached by
the fragment callback keeps the history length and all turns except the
content of the final, in-progress assistant turn. -/
theorem c9_streaming_preserves_turns (hist : List OllamaMessage) (acc : String)
    (frags : List String) :
    ∀ s ∈ fragmentStates hist acc frags,
      s.length = hist.length ∧ s.dropLast = hist.dropLast := by
  induction frags generalizing hist acc with
  | nil =>
    intro s hs
    simp [fragmentStates] at hs
  | cons f rest ih =>
    intro s hs
    rw [fragmentStates] at hs
    simp only [List.mem_cons] at hs
    rcases hs with rfl | hs
    · exact ⟨fragmentStep_length _ _, fragmentStep_dropLast _ _⟩
    · obtain ⟨h1, h2⟩ := ih _ _ s hs
      exact ⟨h1.trans (fragmentStep_length _ _), h2.trans (fragmentStep_dropLast _ _)⟩

/-- Witness for C9's amended statement at a concrete input. -/
theorem c9_streaming_preserves_turns_witness :
    ([{ role := Role.user, content := "u" },
      { role := Role.assistant, content := "x" }] : List OllamaMessage)
        ∈ fragmentStates [{ role := Role.user, content := "u" },
            { role := Role.assistant, content := "" }] "" ["x"]
    ∧ (([{ role := Role.user, content := "u" },
         { role := Role.assistant, content := "x" }] : List OllamaMessage).length
        = ([{ role := Role.user, content := "u" },
            { role := Role.assistant, content := "" }] : List OllamaMessage).length
      ∧ ([{ role := Role.user, content := "u" },
          { role := Role.assistant, content := "x" }] : List OllamaMessage).dropLast
        = [{ role := Role.user, content := "u" },
           { role := Role.assistant, content := "" }].dropLast) :=
  ⟨by decide,
   c9_streaming_preserves_turns
     [{ role := Role.user, content := "u" }, { role := Role.assistant, content := "" }]
     "" ["x"]
     [{ role := Role.user, content := "u" }, { role := Role.assistant, content := "x" }]
     (by decide)⟩

/-- Claim C7: if a chat send is followed by `clear()` before the stream
resolves, late fragments must not repopulate the history.  Confirmed: from
the cleared (empty) history, delivering any late fragment sequence to the
streaming callback leaves the history empty (the callback's `length > 0`
guard fails, so no turn is created or mutated), and the final re-assignment
after the awaited promise resolves also leaves it empty. -/
theorem c7_clear_drops_late_fragments (hist : List OllamaMessage)
    (acc : String) (frags : List String) :
    (foldFragments (clearChat hist) acc frags).1 = [] ∧
    (if (foldFragments (clearChat hist) acc frags).1.length > 0
     then setLastContent (foldFragments (clearChat hist) acc frags).1
            (foldFragments (clearChat hist) acc frags).2
     else (foldFragments (clearChat hist) acc frags).1) = [] := by
  have h : foldFragments (clearChat hist) acc frags
      = ([], frags.foldl (· ++ ·) acc) := foldFragments_nil_left frags acc
  rw [h]
  simp

/-- Claim C3 is false on the code: the context text sent in the prompt is not
limited to lines `max(0, line-10)` through the cursor's line.
`getContextLines` also appends up to five full lines after the cursor's line.
At cursor `(0, 1)` in a three-line document the claim predicts `["a"]`, but
the code returns `["a", "bb", "cc"]` — text from lines after the cursor. -/
theorem c3_counterexample :
    getContextLines ["aa", "bb", "cc"] 0 1 ≠ ["a"]
    ∧ getContextLines ["aa", "bb", "cc"] 0 1 = ["a", "bb", "cc"] :=
  ⟨by decide, by rfl⟩

/-- Claim C3 amended: the context window consists of the lines from
`max(0, line-10)` through the cursor's line — the cursor's own line truncated
at the cursor column — followed by the full lines after the cursor up to
`min(lastLine, line+5)`: up to five lines after the cursor's line are
included as well. -/
theorem c3_context_window (doc : List String) (line char : Nat)
    (h : line < doc.length) :
    getContextLines doc line char
      = (doc.drop (line - 10)).take (min line 10)
        ++ [strTake (doc.getD line "") char]
        ++ (doc.drop (line + 1)).take 5 := by
  have hsplit : min (doc.length - 1) (line + 5) + 1 - (line - 10)
      = min line 10 + (1 + min 5 (doc.length - (line + 1))) := by omega
  simp only [getContextLines]
  rw [hsplit, range_split3, List.map_append, List.map_append, List.map_map]
  congr 1
  · rw [List.map_congr_left (g := fun k => doc.getD ((line - 10) + k) "")
      (fun k hk => by
        rw [List.mem_range] at hk
        rw [if_neg (by omega)])]
    rw [range_map_getD doc (line - 10) (min line 10) (by omega)]
    simp only [List.map_cons, List.map_nil]
    have hidx : line - 10 + min line 10 = line := by omega
    rw [hidx, if_pos rfl]
  · apply List.ext_getElem
    · simp [List.length_take, List.length_drop]
    · intro i h1 h2
      simp only [List.getElem_map, List.getElem_range, List.getElem_take,
        List.getElem_drop, Function.comp_apply]
      have hlt : i < min 5 (doc.length - (line + 1)) := by simp at h1; omega
      have hidx : line - 10 + (min line 10 + 1 + i) = line + 1 + i := by omega
      rw [hidx, if_neg (by omega),
        List.getD_eq_getElem doc "" (by omega)]

/-- Witness for C3's amended statement at a concrete cursor position. -/
theorem c3_context_window_witness :
    0 < (["aa", "bb", "cc"] : List String).length
    ∧ getContextLines ["aa", "bb", "cc"] 0 1
      = ((["aa", "bb", "cc"] : List String).drop (0 - 10)).take (min 0 10)
        ++ [strTake ((["aa", "bb", "cc"] : List String).getD 0 "") 1]
        ++ ((["aa", "bb", "cc"] : List String).drop (0 + 1)).take 5 :=
  ⟨by decide, c3_context_window ["aa", "bb", "cc"] 0 1 (by decide)⟩

/-- Claim C4: when the stream of an exchange fails at any point — here after
`frags` fragments were already applied to the in-progress assistant turn —
that partially filled assistant turn is removed, a synthetic assistant turn
carrying the error description is appended, and the user's turn that
triggered the exchange remains: the final history is the history right after
the user turn was appended (minus at most one turn evicted from its front
when the placeholder append hit the history bound), still ending in the
user's turn, followed by the error turn. -/
theorem c4_failure_rollback (maxH : Nat) (hist : List OllamaMessage)
    (u err : String) (frags : List String) (hu : jsTrim u ≠ "") :
    ∃ n, n ≤ 1 ∧
      (handleSendMessage maxH hist u (StreamOutcome.failure frags err)).history
        = (addMessageToHistory maxH hist { role := Role.user, content := jsTrim u }).drop n
          ++ [{ role := Role.assistant, content := "Error: " ++ err }]
      ∧ ((addMessageToHistory maxH hist
            { role := Role.user, content := jsTrim u }).drop n).getLast?
          = some { role := Role.user, content := jsTrim u } := by
  have hb : (addMessageToHistory maxH hist
      { role := Role.user, content := jsTrim u }).length ≤ maxH * 2 ∨ maxH = 0 := by
    by_cases hm : maxH = 0
    · exact Or.inr hm
    · exact Or.inl (addMessage_length_le maxH hm hist _)
  obtain ⟨k0, hk0, h1shape⟩ := addMessage_shape maxH hist
    { role := Role.user, content := jsTrim u }
  simp only [handleSendMessage]
  rw [if_neg hu]
  rcases addMessage_cases maxH
      (addMessageToHistory maxH hist { role := Role.user, content := jsTrim u })
      { role := Role.assistant, content := "" } hb with
    ⟨hno, h2eq⟩ | ⟨hlen, hm0, h2eq⟩
  · refine ⟨0, by omega, ?_, ?_⟩
    · simp only [h2eq]
      obtain ⟨m2, hrole, hfold⟩ := foldFragments_append frags
        (addMessageToHistory maxH hist { role := Role.user, content := jsTrim u })
        { role := Role.assistant, content := "" } ""
      simp only [hfold, List.getLast?_concat, hrole, if_pos, List.dropLast_concat]
      rw [List.drop_zero]
      exact addMessage_no_evict maxH _ _ hno
    · rw [List.drop_zero]
      exact addMessage_getLast maxH hist _
  · refine ⟨1, le_refl 1, ?_, ?_⟩
    · simp only [h2eq]
      obtain ⟨m2, hrole, hfold⟩ := foldFragments_append frags
        ((addMessageToHistory maxH hist { role := Role.user, content := jsTrim u }).drop 1)
        { role := Role.assistant, content := "" } ""
      simp only [hfold, List.getLast?_concat, hrole, if_pos, List.dropLast_concat]
      refine addMessage_no_evict maxH _ _ (Or.inl ?_)
      rw [List.length_drop]
      omega
    · rw [h1shape]
      have hlen0 : 1 ≤ (hist.drop k0).length := by
        rw [List.length_drop]
        have h2 := hlen
        rw [h1shape, List.length_append, List.length_drop] at h2
        simp only [List.length_cons, List.length_nil] at h2
        omega
      rw [List.drop_append_of_le_length hlen0, List.getLast?_concat]

/-- Witness for C4, the spec's failure scenario: the stream fails after one
fragment `"Par"`; the partial turn is gone, the error turn is appended, the
user turn remains. -/
theorem c4_failure_rollback_witness :
    jsTrim "Hi" ≠ "" ∧
    ∃ n, n ≤ 1 ∧
      (handleSendMessage 20 [] "Hi" (StreamOutcome.failure ["Par"] "boom")).history
        = (addMessageToHistory 20 [] { role := Role.user, content := jsTrim "Hi" }).drop n
          ++ [{ role := Role.assistant, content := "Error: " ++ "boom" }]
      ∧ ((addMessageToHistory 20 []
            { role := Role.user, content := jsTrim "Hi" }).drop n).getLast?
          = some { role := Role.user, content := jsTrim "Hi" } :=
  ⟨by decide, c4_failure_rollback 20 [] "Hi" "boom" ["Par"] (by decide)⟩

/-- Claim C8: for every sequence of streamed fragments delivered in order to
one chat exchange, the final content of the in-progress assistant turn equals
the left-to-right concatenation of the fragments in arrival order: after a
successful exchange the last history turn is an assistant turn whose content
is `String.join frags`. -/
theorem c8_fragments_concat (maxH : Nat) (hist : List OllamaMessage)
    (u : String) (frags : List String) (hu : jsTrim u ≠ "") :
    (handleSendMessage maxH hist u (StreamOutcome.success frags)).history.getLast?
      = some { role := Role.assistant, content := String.join frags } := by
  obtain ⟨k, hk, h2eq⟩ := addMessage_shape maxH
    (addMessageToHistory maxH hist { role := Role.user, content := jsTrim u })
    { role := Role.assistant, content := "" }
  simp only [handleSendMessage]
  rw [if_neg hu]
  simp only [h2eq, successFinal_eq, List.getLast?_concat]
  rfl

/-- Witness for C8, the spec's streaming scenario: sending `"Hello"` with
fragments `["Hi", " there", "!"]` leaves a final assistant turn `"Hi there!"`. -/
theorem c8_fragments_concat_witness :
    jsTrim "Hello" ≠ "" ∧
    (handleSendMessage 20 [] "Hello"
        (StreamOutcome.success ["Hi", " there", "!"])).history.getLast?
      = some { role := Role.assistant, content := String.join ["Hi", " there", "!"] } :=
  ⟨by decide, c8_fragments_concat 20 [] "Hello" ["Hi", " there", "!"] (by decide)⟩

end OllamaVscode
